import Mathlib

/-!
Verification of the appointment aggregation and time-window engine of the
Jiffy Lube dashboard (src/dashboard/src/App.js, second revision of the file,
lines 343-665).

JavaScript strings are embedded as `List Char` (their sequence of code
units; all strings involved are ASCII).  JavaScript numbers appearing in
this code are integers or NaN, embedded as `Option Int` with `none`
standing for NaN (and for `undefined` inside arithmetic, which behaves as
NaN there).  Every operation is translated from the source; deviations
forced by the embedding are recorded in doc comments.
-/

namespace Yocale

/-- A JavaScript string, as its list of code units (all flows here are ASCII). -/
abbrev JsStr := List Char

/-- Embedding of `String.prototype.split` with a single-character separator:
always returns a non-empty list of fields. -/
def splitChar (sep : Char) : JsStr → List JsStr
  | [] => [[]]
  | c :: cs =>
    match splitChar sep cs with
    | [] => [[]]
    | t :: ts => if c = sep then [] :: t :: ts else (c :: t) :: ts

/-- Array destructuring `const [a, b] = arr` reads index i, `undefined` (`none`)
when out of range. -/
def jsIndex (l : List JsStr) (i : Nat) : Option JsStr := l.get? i

/-- Truthiness of a possibly-absent string: `undefined`, `null` and `""` are
falsy, every other string is truthy. -/
def jsTruthy (o : Option JsStr) : Bool :=
  match o with
  | none => false
  | some s => !s.isEmpty

/-- `x || ''`: the string value with empty string for an absent field. -/
def strOrEmpty (o : Option JsStr) : JsStr := o.getD []

/-- `String.prototype.trim` (the strings of this program only ever carry
ordinary spaces, so only U+0020 is trimmed). -/
def jsTrim (s : JsStr) : JsStr :=
  ((s.dropWhile (fun c => c = ' ')).reverse.dropWhile (fun c => c = ' ')).reverse

def isDigitC (c : Char) : Bool := decide ('0' ≤ c ∧ c ≤ '9')

def digitVal (c : Char) : Nat := c.toNat - '0'.toNat

def digitChar (n : Nat) : Char :=
  if n = 0 then '0' else if n = 1 then '1' else if n = 2 then '2'
  else if n = 3 then '3' else if n = 4 then '4' else if n = 5 then '5'
  else if n = 6 then '6' else if n = 7 then '7' else if n = 8 then '8' else '9'

def natCharsAux : Nat → Nat → List Char → List Char
  | 0, _, acc => acc
  | fuel + 1, n, acc =>
    if n < 10 then digitChar n :: acc
    else natCharsAux fuel (n / 10) (digitChar (n % 10) :: acc)

/-- Decimal rendering of a natural number (as `Number.prototype.toString`). -/
def natChars (n : Nat) : JsStr := natCharsAux (n + 1) n []

/-- Rendering of a JavaScript number in a template literal: NaN prints as
`"NaN"`, integers in decimal. -/
def numToChars (o : Option Int) : JsStr :=
  match o with
  | none => "NaN".toList
  | some i => if i < 0 then '-' :: natChars i.natAbs else natChars i.natAbs

/-- Rendering of a possibly-`undefined` string in a template literal:
`undefined` prints as `"undefined"`. -/
def optStr (o : Option JsStr) : JsStr :=
  match o with
  | none => "undefined".toList
  | some s => s

/-- Leading-digits value of a digit list. -/
def digitsVal (ds : JsStr) : Nat := ds.foldl (fun a c => a * 10 + digitVal c) 0

/-- Embedding of global `parseInt` (radix 10): skip leading spaces, optional
sign, parse the longest digit run; NaN (`none`) when there is none.
`parseInt(undefined)` is NaN. -/
def parseIntJs (o : Option JsStr) : Option Int :=
  match o with
  | none => none
  | some s =>
    let s := s.dropWhile (fun c => c = ' ')
    match s with
    | '-' :: rest =>
      let ds := rest.takeWhile isDigitC
      if ds.isEmpty then none else some (-(digitsVal ds : Int))
    | '+' :: rest =>
      let ds := rest.takeWhile isDigitC
      if ds.isEmpty then none else some (digitsVal ds : Int)
    | rest =>
      let ds := rest.takeWhile isDigitC
      if ds.isEmpty then none else some (digitsVal ds : Int)

/-- Embedding of the `Number` conversion on the strings seen in this program
(optionally signed decimal integers after trimming; `""` is 0; anything
else, such as `"NaN"` or `"undefined"`, is NaN).  Fractional and exotic
numeric syntaxes never occur in the flows modelled here. -/
def jsNumber (o : Option JsStr) : Option Int :=
  match o with
  | none => none
  | some s =>
    let t := jsTrim s
    match t with
    | [] => some 0
    | '-' :: ds =>
      if !ds.isEmpty && ds.all isDigitC then some (-(digitsVal ds : Int)) else none
    | ds =>
      if ds.all isDigitC then some (digitsVal ds : Int) else none

/-- NaN-propagating addition. -/
def jsAdd (a b : Option Int) : Option Int :=
  match a, b with
  | some x, some y => some (x + y)
  | _, _ => none

/-- NaN-propagating subtraction. -/
def jsSub (a b : Option Int) : Option Int :=
  match a, b with
  | some x, some y => some (x - y)
  | _, _ => none

/-- NaN-propagating multiplication by a constant. -/
def jsMul (a : Option Int) (k : Int) : Option Int :=
  match a with
  | some x => some (x * k)
  | none => none

/-- `a < k` on JavaScript numbers: any comparison with NaN is false. -/
def jsLt (a : Option Int) (k : Int) : Bool :=
  match a with
  | some x => decide (x < k)
  | none => false

/-- `a > k` on JavaScript numbers: any comparison with NaN is false. -/
def jsGt (a : Option Int) (k : Int) : Bool :=
  match a with
  | some x => decide (k < x)
  | none => false

/-- `a >= k` on JavaScript numbers: any comparison with NaN is false. -/
def jsGe (a : Option Int) (k : Int) : Bool :=
  match a with
  | some x => decide (k ≤ x)
  | none => false

/-- `a <= k` on JavaScript numbers: any comparison with NaN is false. -/
def jsLe (a : Option Int) (k : Int) : Bool :=
  match a with
  | some x => decide (x ≤ k)
  | none => false

def amStr : JsStr := "AM".toList
def pmStr : JsStr := "PM".toList
def noTimeStr : JsStr := "No time".toList

/-- TimeCorrector, `formatTime` (App.js lines 364-393).  The source reads
`appointment.appointment_time_12h`; this embedding takes that field value
directly.  The `try/catch` of the source is not modelled because for
string-typed field values none of `split`, `parseInt` or the template
literal can throw, so the `catch` branch (returning the original string)
is unreachable; a malformed string flows through as NaN/undefined and is
rendered as such by the template literal. -/
def formatTime (timeString : Option JsStr) : JsStr :=
  if !jsTruthy timeString || (strOrEmpty timeString == noTimeStr) then noTimeStr
  else
    let parts := splitChar ' ' (strOrEmpty timeString)
    let time := strOrEmpty (jsIndex parts 0)
    let period := jsIndex parts 1
    let tparts := splitChar ':' time
    let hours := jsIndex tparts 0
    let minutes := jsIndex tparts 1
    let hour24a := parseIntJs hours
    let hour24b := if period == some pmStr && !(hour24a == some 12)
                   then jsAdd hour24a (some 12) else hour24a
    let hour24c := if period == some amStr && hour24a == some 12
                   then some 0 else hour24b
    let hour24d := jsSub hour24c (some 7)
    let hour24 := if jsLt hour24d 0 then jsAdd hour24d (some 24) else hour24d
    let period12 := if jsGe hour24 12 then pmStr else amStr
    let displayHour := if jsGt hour24 12 then jsSub hour24 (some 12)
                       else if hour24 == some 0 then some 12 else hour24
    numToChars displayHour ++ ':' :: optStr minutes ++ ' ' :: period12

/-- A raw appointment row as fetched from the `daily_appointments` table
(fields this core reads; each is a nullable text column). -/
structure RawAppointment where
  appointment_date : Option JsStr
  appointment_time_12h : Option JsStr
  customer_name : Option JsStr
  client_first_name : Option JsStr
  client_last_name : Option JsStr
  offering_name : Option JsStr
deriving DecidableEq

/-- The per-customer grouped entity built by `groupAppointmentsByCustomer`
(App.js lines 457-463). -/
structure GroupedAppointment where
  customer_name : JsStr
  appointment_time_12h : Option JsStr
  services : List JsStr
  times : List (Option JsStr)
deriving DecidableEq

def walkIn : JsStr := "Walk-in".toList

/-- Customer identity of a row (App.js line 453):
`apt.customer_name || (first || '') + ' ' + (last || '')).trim() || 'Walk-in'`. -/
def customerName (apt : RawAppointment) : JsStr :=
  if jsTruthy apt.customer_name then strOrEmpty apt.customer_name
  else
    let fl := jsTrim (strOrEmpty apt.client_first_name ++ ' ' :: strOrEmpty apt.client_last_name)
    if fl.isEmpty then walkIn else fl

/-- Lines 466-469: push the row's service (and its time) onto the group when
`offering_name` is truthy. -/
def pushService (g : GroupedAppointment) (apt : RawAppointment) : GroupedAppointment :=
  if jsTruthy apt.offering_name then
    { g with services := g.services ++ [strOrEmpty apt.offering_name],
             times := g.times ++ [apt.appointment_time_12h] }
  else g

/-- One iteration of the `forEach` of lines 452-470: create the group
(`seedGroup`, lines 458-463, seeding `appointment_time_12h` from the first
row) on first sight of a customer key, then push the row's service.  The key map is embedded as a list in
insertion order, matching the enumeration order of `Object.values` for the
string keys arising here (the JavaScript exception that all-digit keys
would enumerate first is not modelled). -/
def seedGroup (apt : RawAppointment) : GroupedAppointment :=
  { customer_name := customerName apt
    appointment_time_12h := apt.appointment_time_12h
    services := []
    times := [] }

def insertApt (acc : List GroupedAppointment) (apt : RawAppointment) : List GroupedAppointment :=
  let key := customerName apt
  if acc.any (fun g => g.customer_name == key) then
    acc.map (fun g => if g.customer_name == key then pushService g apt else g)
  else
    acc ++ [pushService (seedGroup apt) apt]

/-- The grouping pass of `groupAppointmentsByCustomer` (lines 450-470),
before sorting. -/
def groupAppointments (rows : List RawAppointment) : List GroupedAppointment :=
  rows.foldl insertApt []

/-- Primary collation weight of a character under the CLDR root collation
used by `String.prototype.localeCompare` in an `en-US` environment,
restricted to the characters that occur in this program's time strings:
space before colon before digits before letters.  Characters outside that
set are approximated by code point (ordered after the letters reachable
here). -/
def charWeight (c : Char) : Nat :=
  if c = ' ' then 0
  else if c = ':' then 1
  else if isDigitC c then 2 + digitVal c
  else 20 + c.toNat

/-- Three-way lexicographic comparison of weight lists. -/
def cmpW : List Nat → List Nat → Ordering
  | [], [] => .eq
  | [], _ :: _ => .lt
  | _ :: _, [] => .gt
  | a :: as, b :: bs => if a < b then .lt else if b < a then .gt else cmpW as bs

/-- Embedding of `String.prototype.localeCompare` on the ASCII strings of
this program: primary-weight lexicographic comparison (the strings
compared here never differ only at a secondary or tertiary level). -/
def localeCompare (a b : JsStr) : Int :=
  match cmpW (a.map charWeight) (b.map charWeight) with
  | .lt => -1
  | .eq => 0
  | .gt => 1

/-- The sort comparator of lines 473-477: entities without a time compare
after everything (the comparator returns 1 whenever `a` lacks a time). -/
def sortCmp (a b : GroupedAppointment) : Int :=
  if !jsTruthy a.appointment_time_12h then 1
  else if !jsTruthy b.appointment_time_12h then -1
  else localeCompare (strOrEmpty a.appointment_time_12h) (strOrEmpty b.appointment_time_12h)

/-- Insert `x` into `l` immediately before the first element that the
comparator orders strictly after `x`. -/
def insertJs (x : GroupedAppointment) : List GroupedAppointment → List GroupedAppointment
  | [] => [x]
  | y :: ys => if sortCmp x y < 0 then x :: y :: ys else y :: insertJs x ys

/-- Embedding of `Array.prototype.sort` with the comparator of lines
473-477: the binary insertion sort that TimSort (the algorithm of the
engines this dashboard runs on) applies to short arrays.  For a consistent
comparator this is the ECMAScript-mandated stable sort; this program's
comparator is inconsistent only on pairs of time-less entities, which the
binary insertion places at the end in encountered order. -/
def sortGrouped (l : List GroupedAppointment) : List GroupedAppointment :=
  l.foldl (fun acc x => insertJs x acc) []

/-- `groupAppointmentsByCustomer` (App.js lines 449-478): group rows by
customer identity, then sort by the first appointment time string. -/
def groupAppointmentsByCustomer (rows : List RawAppointment) : List GroupedAppointment :=
  sortGrouped (groupAppointments rows)

/-- Left-pad a string to two characters with `'0'`
(`String.prototype.padStart(2, '0')`). -/
def padStart2 (s : JsStr) : JsStr :=
  if s.length ≥ 2 then s else if s.length = 1 then '0' :: s else ['0', '0']

/-- Two-digit rendering of a (0-99) numeric field, as produced by
`toLocaleString` with the `2-digit` option. -/
def pad2 (n : Nat) : JsStr := padStart2 (natChars n)

/-- VisibilityFilter, `isAppointmentCurrent` (App.js lines 480-515).  The
current Pacific wall-clock time, which the source obtains by formatting
`new Date()` with `hour12: false`, is passed in as `nowH:nowM`
(0 ≤ nowH ≤ 23, 0 ≤ nowM ≤ 59 — the shape `toLocaleString` produces).
The `try/catch` is again unreachable for string-typed fields (`split`,
`parseInt`, `padStart`, `Number` and template literals do not throw on
strings), so it is not modelled: a malformed time yields NaN minutes and
the final NaN ≤ 180 comparison is false. -/
def isAppointmentCurrent (nowH nowM : Nat) (appointment : GroupedAppointment) : Bool :=
  if !jsTruthy appointment.appointment_time_12h then true
  else
    let currentPacific := pad2 nowH ++ ':' :: pad2 nowM
    let aptTime := strOrEmpty appointment.appointment_time_12h
    let parts := splitChar ' ' aptTime
    let time := strOrEmpty (jsIndex parts 0)
    let period := jsIndex parts 1
    let tparts := splitChar ':' time
    let hours := jsIndex tparts 0
    let minutes := jsIndex tparts 1
    let hour24a := parseIntJs hours
    let hour24b := if period == some pmStr && !(hour24a == some 12)
                   then jsAdd hour24a (some 12) else hour24a
    let hour24 := if period == some amStr && hour24a == some 12
                  then some 0 else hour24b
    let aptTime24 := padStart2 (numToChars hour24) ++ ':' :: optStr minutes
    let cs := (splitChar ':' currentPacific).map (fun p => jsNumber (some p))
    let currentHour := (cs.get? 0).join
    let currentMin := (cs.get? 1).join
    let as := (splitChar ':' aptTime24).map (fun p => jsNumber (some p))
    let aptHour := (as.get? 0).join
    let aptMin := (as.get? 1).join
    let currentMinutes := jsAdd (jsMul currentHour 60) currentMin
    let aptMinutes := jsAdd (jsMul aptHour 60) aptMin
    jsLe (jsSub currentMinutes aptMinutes) 180

/-- A canonical `YYYY-MM-DD` date string, the only `appointment_date` shape
that survives `new Date(...).toISOString()` unchanged. -/
def isCanonicalIsoDate (s : JsStr) : Bool :=
  match s with
  | [y1, y2, y3, y4, '-', m1, m2, '-', d1, d2] =>
    isDigitC y1 && isDigitC y2 && isDigitC y3 && isDigitC y4 &&
    isDigitC m1 && isDigitC m2 && isDigitC d1 && isDigitC d2 &&
    decide (1 ≤ digitVal m1 * 10 + digitVal m2) && decide (digitVal m1 * 10 + digitVal m2 ≤ 12) &&
    decide (1 ≤ digitVal d1 * 10 + digitVal d2) && decide (digitVal d1 * 10 + digitVal d2 ≤ 31)
  | _ => false

/-- `filterAppointmentsByDate` (App.js lines 517-523): drop rows with a
falsy `appointment_date`, keep rows whose date, normalized through
`new Date(...).toISOString().split('T')[0]`, equals the key.  For a
canonical `YYYY-MM-DD` string that normalization is the identity (parsed
as UTC midnight and reprinted); other shapes either throw inside the
callback or depend on the ambient timezone and are embedded as never
matching the key (no claim touches them). -/
def filterAppointmentsByDate (rows : List RawAppointment) (dateString : JsStr) : List RawAppointment :=
  rows.filter (fun apt =>
    if !jsTruthy apt.appointment_date then false
    else
      let d := strOrEmpty apt.appointment_date
      isCanonicalIsoDate d && d == dateString)

/-- Line 525-526: the "today" output list — group the today partition, then
keep only appointments the visibility filter accepts. -/
def todayAppointments (rows : List RawAppointment) (todayKey : JsStr) (nowH nowM : Nat) :
    List GroupedAppointment :=
  (groupAppointmentsByCustomer (filterAppointmentsByDate rows todayKey)).filter
    (isAppointmentCurrent nowH nowM)

/-- Line 527: the "tomorrow" output list — grouped only, never passed
through `isAppointmentCurrent`. -/
def tomorrowAppointments (rows : List RawAppointment) (tomorrowKey : JsStr) :
    List GroupedAppointment :=
  groupAppointmentsByCustomer (filterAppointmentsByDate rows tomorrowKey)

/-- Civil date from a count of days since 1970-01-01 (valid for all
post-1970 instants this program handles); the standard era-based
conversion. -/
def civilFromDays (z : Nat) : Nat × Nat × Nat :=
  let z' := z + 719468
  let era := z' / 146097
  let doe := z' % 146097
  let yoe := (doe - doe / 1460 + doe / 36524 - doe / 146096) / 365
  let y := yoe + era * 400
  let doy := doe - (365 * yoe + yoe / 4 - yoe / 100)
  let mp := (5 * doy + 2) / 153
  let d := doy - (153 * mp + 2) / 5 + 1
  let m := if mp < 10 then mp + 3 else mp - 9
  (if m ≤ 2 then y + 1 else y, m, d)

/-- Days since 1970-01-01 of a civil date (valid for dates from 1970 on). -/
def daysFromCivil (y m d : Nat) : Nat :=
  let y' := if m ≤ 2 then y - 1 else y
  let era := y' / 400
  let yoe := y' % 400
  let mp := if m > 2 then m - 3 else m + 9
  let doy := (153 * mp + 2) / 5 + d - 1
  let doe := yoe * 365 + yoe / 4 - yoe / 100 + doy
  era * 146097 + doe - 719468

def pad4 (n : Nat) : JsStr :=
  if n ≥ 1000 then natChars n
  else if n ≥ 100 then '0' :: natChars n
  else if n ≥ 10 then '0' :: '0' :: natChars n
  else '0' :: '0' :: '0' :: natChars n

/-- The date part of `Date.prototype.toISOString` (UTC calendar date) of an
instant given in minutes since the epoch. -/
def minutesToIsoDate (t : Int) : JsStr :=
  match civilFromDays (t.fdiv 1440).toNat with
  | (y, m, d) => pad4 y ++ '-' :: pad2 m ++ '-' :: pad2 d

/-- `getPacificDate` (App.js lines 349-351):
`new Date(now.toLocaleString("en-US", {timeZone: "America/Los_Angeles"}))`
formats the Pacific wall clock of `now` and re-parses that wall-clock
string in the process's ambient timezone, yielding a shifted instant.
Instants are minutes since the epoch; `pacOff` and `ambOff` are the
UTC offsets, in minutes, of the Pacific zone and of the ambient zone at
the instants involved (e.g. -480 for PST, 0 for UTC). -/
def getPacificDate (ambOff pacOff now : Int) : Int :=
  now + pacOff - ambOff

/-- `getTodayPacific` (lines 353-356): ISO (UTC) date of the re-parsed
instant. -/
def getTodayPacific (ambOff pacOff now : Int) : JsStr :=
  minutesToIsoDate (getPacificDate ambOff pacOff now)

/-- `getTomorrowPacific` (lines 358-362): `tomorrow.setDate(tomorrow.getDate() + 1)`
reads and writes the day-of-month in the ambient timezone (normalizing
overflow past the end of the month), then `toISOString` renders the UTC
date. -/
def getTomorrowPacific (ambOff pacOff now : Int) : JsStr :=
  let t := getPacificDate ambOff pacOff now
  let localMin := t + ambOff
  let tod := localMin.emod 1440
  match civilFromDays (localMin.fdiv 1440).toNat with
  | (y, m, d) =>
    let days2 : Int := (daysFromCivil y m 1 : Nat) + (d : Int)
    minutesToIsoDate (days2 * 1440 + tod - ambOff)

/-- Minutes since the epoch of a UTC civil date and time of day. -/
def utcInstant (y m d hh mm : Nat) : Int :=
  (daysFromCivil y m d : Int) * 1440 + (hh : Int) * 60 + (mm : Int)

/-- A well-formed stored time string `H:MM AM|PM` with hour `h` (1-12,
no zero padding) and zero-padded minute `m` (0-59), the normalized shape
described by the spec for `appointment_time_12h`. -/
def mk12 (h m : Nat) (pm : Bool) : JsStr :=
  natChars h ++ ':' :: pad2 m ++ ' ' :: (if pm then pmStr else amStr)

/-- Modelled from the spec: the inverse `+7`-hour correction of §8
("re-applying a +7-hour correction with matching wraparound"), used only
to state the round-trip claim.  It parses like `formatTime`, adds 7 hours,
wraps forward across the day boundary, and re-renders with the same
12-hour reconversion rules. -/
def plus7 (s : JsStr) : JsStr :=
  let parts := splitChar ' ' s
  let time := strOrEmpty (jsIndex parts 0)
  let period := jsIndex parts 1
  let tparts := splitChar ':' time
  let hours := jsIndex tparts 0
  let minutes := jsIndex tparts 1
  let hour24a := parseIntJs hours
  let hour24b := if period == some pmStr && !(hour24a == some 12)
                 then jsAdd hour24a (some 12) else hour24a
  let hour24c := if period == some amStr && hour24a == some 12
                 then some 0 else hour24b
  let hour24d := jsAdd hour24c (some 7)
  let hour24 := if jsGe hour24d 24 then jsSub hour24d (some 24) else hour24d
  let period12 := if jsGe hour24 12 then pmStr else amStr
  let displayHour := if jsGt hour24 12 then jsSub hour24 (some 12)
                     else if hour24 == some 0 then some 12 else hour24
  numToChars displayHour ++ ':' :: optStr minutes ++ ' ' :: period12

/-- Minutes of day denoted by a corrected/displayed 12-hour time string, as
the claims speak of it ("the minutes-of-day of its display_time"); used
only to state claims. -/
def minutesOfDay12h (s : JsStr) : Option Int :=
  let parts := splitChar ' ' s
  let time := strOrEmpty (jsIndex parts 0)
  let period := jsIndex parts 1
  let tparts := splitChar ':' time
  let hour24a := parseIntJs (jsIndex tparts 0)
  let hour24b := if period == some pmStr && !(hour24a == some 12)
                 then jsAdd hour24a (some 12) else hour24a
  let hour24 := if period == some amStr && hour24a == some 12
                then some 0 else hour24b
  jsAdd (jsMul hour24 60) (parseIntJs (jsIndex tparts 1))

/-- Whether a grouped entity carries a (truthy) display time. -/
def hasTime (g : GroupedAppointment) : Bool := jsTruthy g.appointment_time_12h

/-- The order the sorted output satisfies: a time-less entity is followed
only by time-less entities, and two timed entities are in nondecreasing
`localeCompare` order of their stored time strings. -/
def sortRel (a b : GroupedAppointment) : Prop :=
  (hasTime a = false → hasTime b = false) ∧
  (hasTime a = true → hasTime b = true →
    localeCompare (strOrEmpty a.appointment_time_12h) (strOrEmpty b.appointment_time_12h) ≤ 0)

/-- The customer keys of a grouped list, in order. -/
def keysOf (l : List GroupedAppointment) : List JsStr := l.map (fun g => g.customer_name)

/-- The customer identities of the raw rows, in order. -/
def rowKeys (rows : List RawAppointment) : List JsStr := rows.map customerName

/-- The rows carrying a given customer identity, in order. -/
def rowsOfKey (rows : List RawAppointment) (k : JsStr) : List RawAppointment :=
  rows.filter (fun r => customerName r == k)

/-- The truthy service names of the rows of a given customer, in row order:
the claim's reading of what `services` must contain. -/
def servicesOfKey (rows : List RawAppointment) (k : JsStr) : List JsStr :=
  (rowsOfKey rows k).filterMap
    (fun r => if jsTruthy r.offering_name then some (strOrEmpty r.offering_name) else none)

/-- The stored time of the first row of a given customer (the claim's
"display_time is fixed from the first row seen for that customer"). -/
def firstTimeOfKey (rows : List RawAppointment) (k : JsStr) : Option JsStr :=
  match rowsOfKey rows k with
  | [] => none
  | r :: _ => r.appointment_time_12h

/-- The claim's description of `customer_identity` (stated from the spec's
words, for comparison with the source's `customerName`): the row's display
name when present, otherwise the name derived from the first/last name
fields, otherwise the sentinel "Walk-in". -/
def customerIdentitySpec (apt : RawAppointment) : JsStr :=
  if jsTruthy apt.customer_name then strOrEmpty apt.customer_name
  else if !(jsTrim (strOrEmpty apt.client_first_name ++ ' ' :: strOrEmpty apt.client_last_name)).isEmpty
  then jsTrim (strOrEmpty apt.client_first_name ++ ' ' :: strOrEmpty apt.client_last_name)
  else walkIn

/-- Code-unit lexicographic comparison of the corrected display times of two
grouped entities: the key order claim C2 asserts for the sorted output. -/
def corrCmp (a b : GroupedAppointment) : Ordering :=
  cmpW ((formatTime a.appointment_time_12h).map Char.toNat)
    ((formatTime b.appointment_time_12h).map Char.toNat)

/-- Concrete grouped entity used to exhibit the visibility filter's
behavior: stored (uncorrected) time "3:01 PM", displayed as "8:01 AM". -/
def c1g : GroupedAppointment :=
  ⟨"Pat".toList, some ("3:01 PM".toList), ["Oil Change".toList], [some ("3:01 PM".toList)]⟩

/-- Sorter input: stored time "9:15 AM" (displayed "2:15 AM"). -/
def c2gA : GroupedAppointment :=
  ⟨"Alice".toList, some ("9:15 AM".toList), ["Oil Change".toList], [some ("9:15 AM".toList)]⟩

/-- Sorter input: stored time "10:15 AM" (displayed "3:15 AM"). -/
def c2gB : GroupedAppointment :=
  ⟨"Bob".toList, some ("10:15 AM".toList), ["Tire Rotation".toList], [some ("10:15 AM".toList)]⟩

/-- Two rows of one customer with two service lines (the spec's aggregation
example). -/
def c5rows : List RawAppointment :=
  [⟨some ("2026-03-01".toList), some ("9:15 AM".toList), some ("Dana".toList),
    none, none, some ("Oil Change".toList)⟩,
   ⟨some ("2026-03-01".toList), some ("10:00 AM".toList), some ("Dana".toList),
    none, none, some ("Tire Rotation".toList)⟩]

/-- The single grouped entity the aggregator builds from `c5rows`. -/
def c5g : GroupedAppointment :=
  ⟨"Dana".toList, some ("9:15 AM".toList),
   ["Oil Change".toList, "Tire Rotation".toList],
   [some ("9:15 AM".toList), some ("10:00 AM".toList)]⟩

/-- A tomorrow-partition row whose appointment is far in the past of the
current wall-clock time used in the witness. -/
def c7rows : List RawAppointment :=
  [⟨some ("2026-03-02".toList), some ("9:15 AM".toList), some ("Eve".toList),
    none, none, some ("Oil Change".toList)⟩]

/-- The grouped entity arising from `c7rows`. -/
def c7g : GroupedAppointment :=
  ⟨"Eve".toList, some ("9:15 AM".toList), ["Oil Change".toList], [some ("9:15 AM".toList)]⟩

/-- A row with no usable name fields at all (whitespace-only first name). -/
def c9rows : List RawAppointment :=
  [⟨some ("2026-03-01".toList), none, none, some (" ".toList), none, none⟩]

/-- The sentinel-named entity arising from `c9rows`. -/
def c9g : GroupedAppointment := ⟨walkIn, none, [], []⟩

/-- A row with an absent `appointment_date`. -/
def c10row : RawAppointment :=
  ⟨none, some ("9:15 AM".toList), some ("Ann".toList), none, none, some ("Oil Change".toList)⟩

theorem cmpW_nil_ne_gt (cs : List Nat) : cmpW [] cs ≠ .gt := by
  cases cs <;> simp [cmpW]

theorem cmpW_swap (as : List Nat) : ∀ bs, cmpW bs as = (cmpW as bs).swap := by
  induction as with
  | nil => intro bs; cases bs <;> rfl
  | cons a as ih =>
    intro bs
    cases bs with
    | nil => rfl
    | cons b bs =>
      simp only [cmpW]
      rcases Nat.lt_trichotomy a b with h | h | h
      · simp [h, Nat.lt_asymm h, Ordering.swap]
      · simp [h, Nat.lt_irrefl, ih bs]
      · simp [h, Nat.lt_asymm h, Ordering.swap]

theorem cmpW_trans_ne_gt (as : List Nat) :
    ∀ bs cs, cmpW as bs ≠ .gt → cmpW bs cs ≠ .gt → cmpW as cs ≠ .gt := by
  induction as with
  | nil => intro bs cs _ _; exact cmpW_nil_ne_gt cs
  | cons a as ih =>
    intro bs cs h1 h2
    cases bs with
    | nil => simp [cmpW] at h1
    | cons b bs =>
      cases cs with
      | nil => simp [cmpW] at h2
      | cons c cs =>
        simp only [cmpW] at h1 h2 ⊢
        by_cases hab : a < b
        · by_cases hbc : b < c
          · simp [Nat.lt_trans hab hbc]
          · by_cases hcb : c < b
            · simp [hbc, hcb] at h2
            · have hbceq : b = c := by omega
              subst hbceq
              simp [hab]
        · by_cases hba : b < a
          · simp [hab, hba] at h1
          · have habeq : a = b := by omega
            subst habeq
            simp only [Nat.lt_irrefl, if_false] at h1 ⊢
            by_cases hac : a < c
            · simp [hac]
            · by_cases hca : c < a
              · simp [hac, hca] at h2
              · have haceq : a = c := by omega
                subst haceq
                simp only [Nat.lt_irrefl, if_false] at h2 ⊢
                exact ih bs cs h1 h2

theorem localeCompare_le_zero_iff (a b : JsStr) :
    localeCompare a b ≤ 0 ↔ cmpW (a.map charWeight) (b.map charWeight) ≠ .gt := by
  unfold localeCompare
  cases h : cmpW (a.map charWeight) (b.map charWeight) <;> simp [h]

theorem localeCompare_lt_zero_iff (a b : JsStr) :
    localeCompare a b < 0 ↔ cmpW (a.map charWeight) (b.map charWeight) = .lt := by
  unfold localeCompare
  cases h : cmpW (a.map charWeight) (b.map charWeight) <;> simp [h]

theorem localeCompare_swap_le (a b : JsStr) (h : ¬ localeCompare a b < 0) :
    localeCompare b a ≤ 0 := by
  rw [localeCompare_le_zero_iff]
  rw [localeCompare_lt_zero_iff] at h
  rw [cmpW_swap]
  cases hc : cmpW (a.map charWeight) (b.map charWeight) <;> simp_all [Ordering.swap]

theorem localeCompare_le_trans {a b c : JsStr}
    (h1 : localeCompare a b ≤ 0) (h2 : localeCompare b c ≤ 0) : localeCompare a c ≤ 0 := by
  rw [localeCompare_le_zero_iff] at h1 h2 ⊢
  exact cmpW_trans_ne_gt _ _ _ h1 h2

theorem sortCmp_of_absent {a : GroupedAppointment} (b : GroupedAppointment)
    (h : hasTime a = false) : sortCmp a b = 1 := by
  unfold sortCmp
  unfold hasTime at h
  simp [h]

theorem sortCmp_of_present_absent {a b : GroupedAppointment}
    (ha : hasTime a = true) (hb : hasTime b = false) : sortCmp a b = -1 := by
  unfold sortCmp
  unfold hasTime at ha hb
  simp [ha, hb]

theorem sortCmp_of_present {a b : GroupedAppointment}
    (ha : hasTime a = true) (hb : hasTime b = true) :
    sortCmp a b = localeCompare (strOrEmpty a.appointment_time_12h)
      (strOrEmpty b.appointment_time_12h) := by
  unfold sortCmp
  unfold hasTime at ha hb
  simp [ha, hb]

theorem sortRel_of_lt {x y : GroupedAppointment} (h : sortCmp x y < 0) : sortRel x y := by
  cases hx : hasTime x with
  | false => rw [sortCmp_of_absent y hx] at h; omega
  | true =>
    refine ⟨fun hc => (by rw [hx] at hc; cases hc), fun _ hy => ?_⟩
    rw [sortCmp_of_present hx hy] at h
    omega

theorem sortRel_of_not_lt {x y : GroupedAppointment} (h : ¬ sortCmp x y < 0) : sortRel y x := by
  cases hx : hasTime x with
  | false =>
    exact ⟨fun _ => hx, fun _ hx' => by rw [hx] at hx'; cases hx'⟩
  | true =>
    cases hy : hasTime y with
    | false => rw [sortCmp_of_present_absent hx hy] at h; omega
    | true =>
      refine ⟨fun hc => (by rw [hy] at hc; cases hc), fun _ _ => ?_⟩
      rw [sortCmp_of_present hx hy] at h
      exact localeCompare_swap_le _ _ h

theorem sortRel_step {x y z : GroupedAppointment}
    (h : sortCmp x y < 0) (hyz : sortRel y z) : sortRel x z := by
  cases hx : hasTime x with
  | false => rw [sortCmp_of_absent y hx] at h; omega
  | true =>
    refine ⟨fun hc => (by rw [hx] at hc; cases hc), fun _ hz => ?_⟩
    cases hy : hasTime y with
    | false => exact absurd hz (by rw [hyz.1 hy]; simp)
    | true =>
      rw [sortCmp_of_present hx hy] at h
      exact localeCompare_le_trans (by omega) (hyz.2 hy hz)

theorem insertJs_perm (x : GroupedAppointment) :
    ∀ l, (insertJs x l).Perm (x :: l) := by
  intro l
  induction l with
  | nil => exact List.Perm.refl _
  | cons y ys ih =>
    unfold insertJs
    by_cases h : sortCmp x y < 0
    · simp [h]
    · simp only [h, if_false]
      exact (ih.cons y).trans (List.Perm.swap x y ys)

theorem insertJs_mem {a x : GroupedAppointment} {l : List GroupedAppointment} :
    a ∈ insertJs x l ↔ a = x ∨ a ∈ l := by
  rw [(insertJs_perm x l).mem_iff]
  simp

theorem insertJs_absent {x : GroupedAppointment} (h : hasTime x = false) :
    ∀ l, insertJs x l = l ++ [x] := by
  intro l
  induction l with
  | nil => rfl
  | cons y ys ih =>
    unfold insertJs
    rw [sortCmp_of_absent y h]
    simp [ih]

theorem insertJs_split (x : GroupedAppointment) :
    ∀ l, ∃ l1 l2, l = l1 ++ l2 ∧ insertJs x l = l1 ++ x :: l2 := by
  intro l
  induction l with
  | nil => exact ⟨[], [], rfl, rfl⟩
  | cons y ys ih =>
    unfold insertJs
    by_cases h : sortCmp x y < 0
    · exact ⟨[], y :: ys, rfl, by simp [h]⟩
    · obtain ⟨l1, l2, he, hi⟩ := ih
      exact ⟨y :: l1, l2, by simp [he], by simp [h, hi]⟩

theorem insertJs_pairwise {x : GroupedAppointment} {l : List GroupedAppointment}
    (h : l.Pairwise sortRel) : (insertJs x l).Pairwise sortRel := by
  induction l with
  | nil => simp [insertJs]
  | cons y ys ih =>
    rw [List.pairwise_cons] at h
    obtain ⟨hy, hys⟩ := h
    unfold insertJs
    by_cases hlt : sortCmp x y < 0
    · simp only [hlt, if_true]
      rw [List.pairwise_cons]
      refine ⟨?_, List.pairwise_cons.2 ⟨hy, hys⟩⟩
      intro z hz
      rcases List.mem_cons.1 hz with rfl | hz'
      · exact sortRel_of_lt hlt
      · exact sortRel_step hlt (hy z hz')
    · simp only [hlt, if_false]
      rw [List.pairwise_cons]
      refine ⟨?_, ih hys⟩
      intro z hz
      rcases insertJs_mem.1 hz with rfl | hz'
      · exact sortRel_of_not_lt hlt
      · exact hy z hz'

theorem foldl_insertJs_perm (l : List GroupedAppointment) :
    ∀ acc, (l.foldl (fun a x => insertJs x a) acc).Perm (acc ++ l) := by
  induction l with
  | nil => intro acc; simp
  | cons x xs ih =>
    intro acc
    have h1 := ih (insertJs x acc)
    have h2 : (insertJs x acc ++ xs).Perm (acc ++ x :: xs) := by
      have := (insertJs_perm x acc).append_right xs
      exact this.trans List.perm_middle.symm
    exact (List.foldl_cons _ _ ▸ h1).trans h2

theorem sortGrouped_perm (l : List GroupedAppointment) : (sortGrouped l).Perm l := by
  have := foldl_insertJs_perm l []
  simpa [sortGrouped] using this

theorem foldl_insertJs_pairwise (l : List GroupedAppointment) :
    ∀ acc, acc.Pairwise sortRel →
      (l.foldl (fun a x => insertJs x a) acc).Pairwise sortRel := by
  induction l with
  | nil => intro acc h; simpa using h
  | cons x xs ih =>
    intro acc h
    exact ih (insertJs x acc) (insertJs_pairwise h)

theorem sortGrouped_pairwise (l : List GroupedAppointment) :
    (sortGrouped l).Pairwise sortRel :=
  foldl_insertJs_pairwise l [] (List.Pairwise.nil)

theorem insertJs_filter_absent (x : GroupedAppointment) (l : List GroupedAppointment) :
    (insertJs x l).filter (fun g => !hasTime g) =
      l.filter (fun g => !hasTime g) ++ (if hasTime x then [] else [x]) := by
  cases hx : hasTime x with
  | true =>
    obtain ⟨l1, l2, he, hi⟩ := insertJs_split x l
    rw [hi, he]
    simp [List.filter_append, List.filter_cons, hx]
  | false =>
    rw [insertJs_absent hx]
    simp [List.filter_append, List.filter_cons, hx]

theorem foldl_insertJs_filter (l : List GroupedAppointment) :
    ∀ acc, (l.foldl (fun a x => insertJs x a) acc).filter (fun g => !hasTime g) =
      acc.filter (fun g => !hasTime g) ++ l.filter (fun g => !hasTime g) := by
  induction l with
  | nil => intro acc; simp
  | cons x xs ih =>
    intro acc
    rw [List.foldl_cons, ih (insertJs x acc), insertJs_filter_absent]
    cases hx : hasTime x <;> simp [List.filter_cons, hx]

theorem sortGrouped_filter_absent (l : List GroupedAppointment) :
    (sortGrouped l).filter (fun g => !hasTime g) = l.filter (fun g => !hasTime g) := by
  have := foldl_insertJs_filter l []
  simpa [sortGrouped] using this

theorem pushService_name (g : GroupedAppointment) (r : RawAppointment) :
    (pushService g r).customer_name = g.customer_name := by
  unfold pushService; split <;> rfl

theorem pushService_time (g : GroupedAppointment) (r : RawAppointment) :
    (pushService g r).appointment_time_12h = g.appointment_time_12h := by
  unfold pushService; split <;> rfl

theorem pushService_services (g : GroupedAppointment) (r : RawAppointment) :
    (pushService g r).services =
      g.services ++ (if jsTruthy r.offering_name then [strOrEmpty r.offering_name] else []) := by
  unfold pushService
  split <;> simp_all

theorem any_keys (acc : List GroupedAppointment) (k : JsStr) :
    (acc.any (fun g => g.customer_name == k)) = true ↔ k ∈ keysOf acc := by
  simp [keysOf, List.any_eq_true, List.mem_map]

theorem keysOf_append (l1 l2 : List GroupedAppointment) :
    keysOf (l1 ++ l2) = keysOf l1 ++ keysOf l2 := by
  simp [keysOf]

theorem mem_rowKeys_iff (rows : List RawAppointment) (k : JsStr) :
    k ∈ rowKeys rows ↔ rowsOfKey rows k ≠ [] := by
  rw [rowKeys, rowsOfKey]
  constructor
  · intro h hnil
    rw [List.mem_map] at h
    obtain ⟨r, hr, he⟩ := h
    have : r ∈ rows.filter (fun r => customerName r == k) := by
      rw [List.mem_filter]
      exact ⟨hr, by simp [he]⟩
    rw [hnil] at this
    cases this
  · intro h
    obtain ⟨r, hr⟩ := List.exists_mem_of_ne_nil _ h
    rw [List.mem_filter] at hr
    rw [List.mem_map]
    exact ⟨r, hr.1, by simpa using hr.2⟩

theorem rowsOfKey_append (rows : List RawAppointment) (r : RawAppointment) (k : JsStr) :
    rowsOfKey (rows ++ [r]) k =
      rowsOfKey rows k ++ (if customerName r == k then [r] else []) := by
  rw [rowsOfKey, rowsOfKey, List.filter_append]
  congr 1
  simp [List.filter_cons]

theorem servicesOfKey_append (rows : List RawAppointment) (r : RawAppointment) (k : JsStr) :
    servicesOfKey (rows ++ [r]) k =
      servicesOfKey rows k ++
        (if customerName r == k then
          (if jsTruthy r.offering_name then [strOrEmpty r.offering_name] else [])
        else []) := by
  rw [servicesOfKey, servicesOfKey, rowsOfKey_append, List.filterMap_append]
  congr 1
  by_cases h : customerName r == k <;> by_cases h2 : jsTruthy r.offering_name <;>
    simp [h, h2]

theorem firstTimeOfKey_of_ne_nil {rows : List RawAppointment} {k : JsStr}
    (h : rowsOfKey rows k ≠ []) (r : RawAppointment) :
    firstTimeOfKey (rows ++ [r]) k = firstTimeOfKey rows k := by
  rw [firstTimeOfKey, firstTimeOfKey, rowsOfKey_append]
  cases hc : rowsOfKey rows k with
  | nil => exact absurd hc h
  | cons a l => simp

theorem firstTimeOfKey_of_nil {rows : List RawAppointment} {k : JsStr}
    (h : rowsOfKey rows k = []) {r : RawAppointment} (hk : (customerName r == k) = true) :
    firstTimeOfKey (rows ++ [r]) k = r.appointment_time_12h := by
  rw [firstTimeOfKey, rowsOfKey_append, h, hk]
  simp

theorem servicesOfKey_of_nil {rows : List RawAppointment} {k : JsStr}
    (h : rowsOfKey rows k = []) : servicesOfKey rows k = [] := by
  rw [servicesOfKey, h]
  rfl

theorem groupAppointments_append (rows : List RawAppointment) (r : RawAppointment) :
    groupAppointments (rows ++ [r]) = insertApt (groupAppointments rows) r := by
  unfold groupAppointments
  rw [List.foldl_append]
  rfl

/-- Full characterization of the grouping pass: one entity per distinct
customer identity (keys are exactly the identities seen, without
duplicates), `services` collects exactly the truthy service names of that
customer's rows in row order, and the recorded time is the first such
row's stored time. -/
theorem groupAppointments_spec (rows : List RawAppointment) :
    (keysOf (groupAppointments rows)).Nodup ∧
    (∀ k, k ∈ keysOf (groupAppointments rows) ↔ k ∈ rowKeys rows) ∧
    (∀ g ∈ groupAppointments rows,
      g.services = servicesOfKey rows g.customer_name ∧
      g.appointment_time_12h = firstTimeOfKey rows g.customer_name) := by
  induction rows using List.reverseRecOn with
  | nil =>
    refine ⟨by simp [groupAppointments, keysOf], ?_, ?_⟩
    · intro k; simp [groupAppointments, keysOf, rowKeys]
    · intro g hg; simp [groupAppointments] at hg
  | append_singleton rows r ih =>
    obtain ⟨hnd, hmem, helts⟩ := ih
    rw [groupAppointments_append]
    by_cases hkey : customerName r ∈ keysOf (groupAppointments rows)
    · -- the customer was already seen: update its entry in place
      have hany : ((groupAppointments rows).any
          (fun g => g.customer_name == customerName r)) = true :=
        (any_keys _ _).2 hkey
      have hrows : rowsOfKey rows (customerName r) ≠ [] :=
        (mem_rowKeys_iff _ _).1 ((hmem _).1 hkey)
      have hstep : insertApt (groupAppointments rows) r =
          (groupAppointments rows).map
            (fun g => if g.customer_name == customerName r then pushService g r else g) := by
        unfold insertApt
        simp only [hany, if_true]
      rw [hstep]
      have hkeys : keysOf ((groupAppointments rows).map
          (fun g => if g.customer_name == customerName r then pushService g r else g)) =
          keysOf (groupAppointments rows) := by
        unfold keysOf
        rw [List.map_map]
        apply List.map_congr_left
        intro g _
        simp only [Function.comp]
        split
        · exact pushService_name g r
        · rfl
      refine ⟨by rw [hkeys]; exact hnd, ?_, ?_⟩
      · intro k
        rw [hkeys, hmem k, rowKeys, rowKeys]
        simp only [List.map_append, List.map_cons, List.map_nil, List.mem_append,
          List.mem_singleton]
        constructor
        · exact fun h => Or.inl h
        · rintro (h | rfl)
          · exact h
          · exact (hmem _).1 hkey
      · intro g' hg'
        rw [List.mem_map] at hg'
        obtain ⟨g, hg, rfl⟩ := hg'
        obtain ⟨hs, ht⟩ := helts g hg
        by_cases hgk : g.customer_name = customerName r
        · have hbeq : (g.customer_name == customerName r) = true := by simp [hgk]
          rw [if_pos hbeq, pushService_name, pushService_time, pushService_services,
            servicesOfKey_append, firstTimeOfKey_of_ne_nil (by rw [hgk]; exact hrows) r]
          rw [hgk] at hs ht ⊢
          simp only [beq_self_eq_true, if_true]
          exact ⟨by rw [hs], ht⟩
        · have hbeq : (g.customer_name == customerName r) = false := by simp [hgk]
          rw [if_neg (by simp [hbeq])]
          have hgrows : rowsOfKey rows g.customer_name ≠ [] :=
            (mem_rowKeys_iff _ _).1 ((hmem _).1 (by
              rw [keysOf, List.mem_map]; exact ⟨g, hg, rfl⟩))
          rw [servicesOfKey_append, firstTimeOfKey_of_ne_nil hgrows r]
          have hcf : (customerName r == g.customer_name) = false := by
            simp only [beq_eq_false_iff_ne]
            exact fun h => hgk h.symm
          simp only [hcf, Bool.false_eq_true, if_false, List.append_nil]
          exact ⟨hs, ht⟩
    · -- first sight of this customer: a new entry is appended
      have hany : ((groupAppointments rows).any
          (fun g => g.customer_name == customerName r)) = false := by
        rw [← Bool.not_eq_true, any_keys]
        exact hkey
      have hrows : rowsOfKey rows (customerName r) = [] := by
        by_contra h
        exact hkey ((hmem _).2 ((mem_rowKeys_iff _ _).2 h))
      have hstep : insertApt (groupAppointments rows) r =
          groupAppointments rows ++ [pushService (seedGroup r) r] := by
        unfold insertApt
        simp only [hany, Bool.false_eq_true, if_false]
      rw [hstep]
      have hnewname : (pushService (seedGroup r) r).customer_name = customerName r :=
        pushService_name _ r
      refine ⟨?_, ?_, ?_⟩
      · rw [keysOf_append]
        simp only [keysOf, List.map_cons, List.map_nil, hnewname]
        rw [List.nodup_append]
        exact ⟨hnd, List.nodup_singleton _, by
          intro a ha hb
          rw [List.mem_singleton] at hb
          exact hkey (hb ▸ ha)⟩
      · intro k
        rw [keysOf_append]
        simp only [keysOf, List.map_cons, List.map_nil, hnewname, List.mem_append,
          List.mem_singleton, rowKeys, List.map_append]
        rw [← keysOf, hmem k, rowKeys]
      · intro g' hg'
        rw [List.mem_append, List.mem_singleton] at hg'
        rcases hg' with hg | rfl
        · obtain ⟨hs, ht⟩ := helts g' hg
          have hne : g'.customer_name ≠ customerName r := by
            intro h
            exact hkey (h ▸ (by rw [keysOf, List.mem_map]; exact ⟨g', hg, rfl⟩))
          have hgrows : rowsOfKey rows g'.customer_name ≠ [] :=
            (mem_rowKeys_iff _ _).1 ((hmem _).1 (by
              rw [keysOf, List.mem_map]; exact ⟨g', hg, rfl⟩))
          rw [servicesOfKey_append, firstTimeOfKey_of_ne_nil hgrows r]
          have hcf : (customerName r == g'.customer_name) = false := by
            simp only [beq_eq_false_iff_ne]
            exact fun h => hne h.symm
          simp only [hcf, Bool.false_eq_true, if_false, List.append_nil]
          exact ⟨hs, ht⟩
        · rw [hnewname, pushService_time, pushService_services, servicesOfKey_append,
            firstTimeOfKey_of_nil hrows (by simp), servicesOfKey_of_nil hrows]
          simp [seedGroup]

theorem jsTruthy_strOrEmpty_ne_nil {o : Option JsStr} (h : jsTruthy o = true) :
    strOrEmpty o ≠ [] := by
  cases o with
  | none => simp [jsTruthy] at h
  | some s =>
    simp only [jsTruthy, Bool.not_eq_true'] at h
    simp only [strOrEmpty, Option.getD_some]
    intro hnil
    rw [hnil] at h
    simp at h

theorem customerName_ne_nil (r : RawAppointment) : customerName r ≠ [] := by
  unfold customerName
  by_cases h1 : jsTruthy r.customer_name
  · simp only [h1, if_true]
    exact jsTruthy_strOrEmpty_ne_nil h1
  · simp only [h1, Bool.false_eq_true, if_false]
    split
    · decide
    · rename_i h2
      intro hnil
      rw [hnil] at h2
      simp at h2

theorem customerName_eq_spec (r : RawAppointment) : customerName r = customerIdentitySpec r := by
  unfold customerName customerIdentitySpec
  by_cases h1 : jsTruthy r.customer_name
  · simp [h1]
  · by_cases h2 : (jsTrim (strOrEmpty r.client_first_name ++ ' ' ::
      strOrEmpty r.client_last_name)).isEmpty
    · simp [h1, h2]
    · simp [h1, h2]

/-- Claim C1 (code_bug): the visibility filter is claimed to keep a "today"
entity iff the current local time minus the minutes-of-day of its
corrected display time is at most 180 minutes.  The code instead parses
the stored, uncorrected `appointment_time_12h`: at Pacific time 11:02 an
appointment stored as "3:01 PM" — displayed by `formatTime` as "8:01 AM",
hence 181 minutes old in corrected terms, which the claim says must be
excluded — is kept by `isAppointmentCurrent` (662 − 901 = −239 ≤ 180),
contradicting the source's own "hide appointments older than 3 hours"
comments. -/
theorem c1_filter_uses_stored_time :
    isAppointmentCurrent 11 2 c1g = true ∧
    formatTime c1g.appointment_time_12h = "8:01 AM".toList ∧
    jsSub (some (11 * 60 + 2)) (minutesOfDay12h ("8:01 AM".toList)) = some 181 := by
  decide

/-- Claim C2 (corrected), counterexample: the sorter is claimed to order
ascending by lexicographic comparison of the corrected display time.  On
stored times "9:15 AM" (corrected "2:15 AM") and "10:15 AM" (corrected
"3:15 AM") the code sorts by the stored strings and outputs the "10:15 AM"
entity first, whose corrected time compares lexicographically greater than
the corrected time of the entity after it — not ascending. -/
theorem c2_sorter_counterexample :
    sortGrouped [c2gA, c2gB] = [c2gB, c2gA] ∧
    hasTime c2gB = true ∧ hasTime c2gA = true ∧
    corrCmp c2gB c2gA = .gt := by
  decide

/-- Claim C2 (corrected), amended: the sorter orders each day's sequence
ascending by `localeCompare` of the stored, uncorrected `display_time`
string (for these time strings that is primary-weight lexicographic order,
in which ':' collates before digits); an entity with an absent time sorts
after every entity with a present time, and entities with absent times
keep their encountered order.  Stated as: the output is a permutation of
the input, pairwise ordered by `sortRel`, and the subsequence of time-less
entities is unchanged. -/
theorem c2_sorter_amended (l : List GroupedAppointment) :
    (sortGrouped l).Perm l ∧
    (sortGrouped l).Pairwise sortRel ∧
    (sortGrouped l).filter (fun g => !hasTime g) = l.filter (fun g => !hasTime g) :=
  ⟨sortGrouped_perm l, sortGrouped_pairwise l, sortGrouped_filter_absent l⟩

/-- Claim C3 (code_bug): absent and sentinel inputs do pass through as
"No time", but a malformed (unparsable) time string is claimed to be
returned unchanged, while the code returns a NaN-mangled render instead:
`split`/`parseInt` never throw on a string, so the `catch` branch the
source's "Return original if parsing fails" comment refers to is
unreachable, and "garbage" comes back as "NaN:undefined AM". -/
theorem c3_malformed_time_not_returned :
    formatTime none = noTimeStr ∧
    formatTime (some noTimeStr) = noTimeStr ∧
    formatTime (some []) = noTimeStr ∧
    formatTime (some ("garbage".toList)) = "NaN:undefined AM".toList ∧
    "NaN:undefined AM".toList ≠ "garbage".toList := by
  decide

set_option maxHeartbeats 4000000 in
/-- Claim C4 (confirmed): for every valid `H:MM AM|PM` time string
(hour 1-12, zero-padded minute 00-59), applying the TimeCorrector
(`formatTime`, −7 hours with backward wraparound) and then the spec's
inverse +7-hour correction with matching wraparound returns the original
string. -/
theorem c4_roundTrip :
    ∀ (h : Fin 12) (m : Fin 60) (pm : Bool),
      plus7 (formatTime (some (mk12 (h.1 + 1) m.1 pm))) = mk12 (h.1 + 1) m.1 pm := by
  decide

/-- Claim C5 (confirmed): for every input row sequence, the aggregator
produces exactly one grouped entity per distinct customer identity (its
key list is the duplicate-free list of identities seen); each entity's
`services` is exactly the truthy service names of that customer's rows in
row order; and its `display_time` is the stored time of the first row seen
for that customer, independent of later rows. -/
theorem c5_aggregator (rows : List RawAppointment) :
    (keysOf (groupAppointments rows)).Nodup ∧
    (∀ k, k ∈ keysOf (groupAppointments rows) ↔ k ∈ rowKeys rows) ∧
    (∀ g ∈ groupAppointments rows,
      g.services = servicesOfKey rows g.customer_name ∧
      g.appointment_time_12h = firstTimeOfKey rows g.customer_name) :=
  groupAppointments_spec rows

/-- Witness for C5 at the spec's example: two rows for "Dana" with
"Oil Change" then "Tire Rotation" yield the single entity `c5g` whose
services are exactly those two names in order and whose time is the first
row's. -/
theorem c5_aggregator_witness :
    c5g ∈ groupAppointments c5rows ∧
    c5g.services = servicesOfKey c5rows c5g.customer_name ∧
    c5g.appointment_time_12h = firstTimeOfKey c5rows c5g.customer_name ∧
    servicesOfKey c5rows c5g.customer_name =
      ["Oil Change".toList, "Tire Rotation".toList] :=
  ⟨by decide, ((c5_aggregator c5rows).2.2 c5g (by decide)).1,
   ((c5_aggregator c5rows).2.2 c5g (by decide)).2, by decide⟩

/-- Claim C6 (confirmed): `formatTime` maps "12:00 AM" to "5:00 PM"
(wraparound through the previous evening) and "9:15 AM" to "2:15 AM". -/
theorem c6_timeCorrector_examples :
    formatTime (some ("12:00 AM".toList)) = "5:00 PM".toList ∧
    formatTime (some ("9:15 AM".toList)) = "2:15 AM".toList := by
  decide

/-- Claim C7 (confirmed): the "tomorrow" list is never passed through the
visibility filter — every grouped entity of the tomorrow partition is in
the tomorrow output, and even an entity the filter would reject (which the
today pipeline would drop) is kept there. -/
theorem c7_tomorrow_bypasses_filter (rows : List RawAppointment) (tmk : JsStr)
    (nowH nowM : Nat) (g : GroupedAppointment)
    (hg : g ∈ groupAppointmentsByCustomer (filterAppointmentsByDate rows tmk)) :
    g ∈ tomorrowAppointments rows tmk ∧
    (isAppointmentCurrent nowH nowM g = false →
      g ∉ (groupAppointmentsByCustomer (filterAppointmentsByDate rows tmk)).filter
        (isAppointmentCurrent nowH nowM)) := by
  refine ⟨hg, fun hf hmem => ?_⟩
  rw [List.mem_filter] at hmem
  rw [hf] at hmem
  simp at hmem

/-- Witness for C7: a tomorrow-partition appointment stored as "9:15 AM",
checked at wall clock 23:59 (884 minutes stale, rejected by the filter),
is nevertheless in the tomorrow output. -/
theorem c7_tomorrow_bypasses_filter_witness :
    c7g ∈ tomorrowAppointments c7rows ("2026-03-02".toList) ∧
    isAppointmentCurrent 23 59 c7g = false :=
  ⟨(c7_tomorrow_bypasses_filter c7rows ("2026-03-02".toList) 23 59 c7g (by decide)).1,
   by decide⟩

/-- Claim C8 (code_bug): the date window is claimed to be computed in the
fixed Pacific timezone independently of the process's ambient timezone.
The code re-parses the Pacific wall-clock string in the ambient zone and
then takes the UTC (`toISOString`) date: at Pacific 2024-02-28 23:50 PST
(UTC 2024-02-29 07:50) a process whose ambient zone is Pacific itself
gets today = 2024-02-29 and tomorrow = 2024-03-01 instead of the claimed
2024-02-28 / 2024-02-29; only an ambient-UTC process matches the claim,
so the result does depend on the ambient timezone. -/
theorem c8_dateWindow_ambient_dependent :
    getTodayPacific (-480) (-480) (utcInstant 2024 2 29 7 50) = "2024-02-29".toList ∧
    getTomorrowPacific (-480) (-480) (utcInstant 2024 2 29 7 50) = "2024-03-01".toList ∧
    getTodayPacific 0 (-480) (utcInstant 2024 2 29 7 50) = "2024-02-28".toList ∧
    getTomorrowPacific 0 (-480) (utcInstant 2024 2 29 7 50) = "2024-02-29".toList := by
  decide

/-- Claim C9 (confirmed): `customer_identity` is the row's display name
when present, otherwise derived from the first/last name fields, otherwise
the sentinel "Walk-in" (the code's `customerName` equals the claim's case
description), it is never the empty string, and every grouped entity the
pipeline produces carries such a non-empty name. -/
theorem c9_customer_identity :
    (∀ r : RawAppointment, customerName r = customerIdentitySpec r ∧ customerName r ≠ []) ∧
    (∀ (rows : List RawAppointment) (g : GroupedAppointment),
      g ∈ groupAppointmentsByCustomer rows → g.customer_name ≠ []) := by
  refine ⟨fun r => ⟨customerName_eq_spec r, customerName_ne_nil r⟩, ?_⟩
  intro rows g hg
  unfold groupAppointmentsByCustomer at hg
  have hg' : g ∈ groupAppointments rows :=
    ((sortGrouped_perm (groupAppointments rows)).mem_iff).1 hg
  have hkey : g.customer_name ∈ keysOf (groupAppointments rows) := by
    rw [keysOf, List.mem_map]
    exact ⟨g, hg', rfl⟩
  have hk : g.customer_name ∈ rowKeys rows :=
    ((groupAppointments_spec rows).2.1 _).1 hkey
  rw [rowKeys, List.mem_map] at hk
  obtain ⟨r, _, he⟩ := hk
  rw [← he]
  exact customerName_ne_nil r

/-- Witness for C9: a row with no display name and a whitespace-only first
name yields the sentinel-named entity, whose name is non-empty. -/
theorem c9_customer_identity_witness :
    c9g ∈ groupAppointmentsByCustomer c9rows ∧ c9g.customer_name ≠ [] :=
  ⟨by decide, c9_customer_identity.2 c9rows c9g (by decide)⟩

/-- Claim C10 (confirmed): a raw row whose `appointment_date` is absent is
excluded from the partition built for any date key, in particular from
both the today and the tomorrow partitions from which the two output lists
are computed. -/
theorem c10_absent_date_excluded (rows : List RawAppointment) (todayKey tomorrowKey : JsStr)
    (r : RawAppointment) (h : jsTruthy r.appointment_date = false) :
    r ∉ filterAppointmentsByDate rows todayKey ∧
    r ∉ filterAppointmentsByDate rows tomorrowKey := by
  constructor <;>
  · intro hmem
    rw [filterAppointmentsByDate, List.mem_filter] at hmem
    have h2 := hmem.2
    simp [h] at h2

/-- Witness for C10: the dateless row `c10row` is in neither partition. -/
theorem c10_absent_date_excluded_witness :
    c10row ∉ filterAppointmentsByDate [c10row] ("2026-03-01".toList) ∧
    c10row ∉ filterAppointmentsByDate [c10row] ("2026-03-02".toList) :=
  c10_absent_date_excluded [c10row] ("2026-03-01".toList) ("2026-03-02".toList) c10row
    (by decide)

end Yocale
